import Mathlib

/-
Shallow embedding of the Railnode storage adapter layer.

Sources embedded here:
  - src/unnamed/part_005        (crud/internal/store.ts: CrudItem, sanitizeClientPayload,
                                 createInMemoryStore)
  - src/unnamed/part_006        (crud/internal/jsonFileStore.ts: loadPersistedData,
                                 atomicWriteJson, createJsonFileStore)
  - src/src/db/mongoAdapter.ts  (splitStructuredPatch, pickStructuredInsert,
                                 tryParseObjectId/buildLookup, the per-model store,
                                 ensureCollection memoization, createDbAdapter)
  - src/src/db/postgresAdapter.ts (sanitizeClientPayload, rowToCrudItem, the per-model
                                 store, ensureTable memoization)

Modelling conventions: JavaScript objects are association lists in key insertion
order with unique keys maintained by the operations; machine time is an abstract
Nat clock passed explicitly where the code calls new Date(); randomly generated
identifiers (randomUUID, new ObjectId) are explicit parameters.
-/

namespace Railnode

/-- JavaScript runtime values as far as the store layer inspects them: the code
only ever tests a field value against undefined and null, so other values are
kept as plain string, integer and boolean leaves. -/
inductive Value
  | vNull
  | vUndef
  | vStr (s : String)
  | vNum (n : Int)
  | vBool (b : Bool)
deriving DecidableEq, Repr

/-- A JavaScript object: an association list of fields in key insertion order. -/
abbrev Obj := List (String × Value)

/-- Property read: first binding of the key wins (the operations below keep keys
unique, so the first binding is the only one). -/
def oget (o : Obj) (k : String) : Option Value :=
  match o with
  | [] => none
  | (k₁, v) :: rest => if k₁ = k then some v else oget rest k

/-- Property write, as JavaScript assignment behaves: an existing key is
overwritten in place (keeping its position), a new key is appended. -/
def oset (o : Obj) (k : String) (v : Value) : Obj :=
  match o with
  | [] => [(k, v)]
  | (k₁, v₁) :: rest => if k₁ = k then (k, v) :: rest else (k₁, v₁) :: oset rest k v

/-- Object spread: the semantics of a JavaScript spread of patch over base,
assigning the patch fields left to right. -/
def ospread (base : Obj) : Obj → Obj
  | [] => base
  | (k, v) :: rest => ospread (oset base k v) rest

/-- Key removal, as the runtime behaviour of the mongo $unset operator on a
document field. -/
def odeleteKey (o : Obj) (k : String) : Obj :=
  match o with
  | [] => []
  | (k₁, v) :: rest => if k₁ = k then odeleteKey rest k else (k₁, v) :: odeleteKey rest k

/-- Removal of a list of keys, left to right. -/
def unsetAll (o : Obj) : List String → Obj
  | [] => o
  | k :: rest => unsetAll (odeleteKey o k) rest

/-- Keys of an object, in order. -/
def okeys (o : Obj) : List String :=
  o.map Prod.fst

/-- A client payload as the stores receive it: possibly not an object at all. -/
inductive Payload
  | pNull
  | pUndef
  | pNum (n : Int)
  | pStr (s : String)
  | pBool (b : Bool)
  | pObj (fields : Obj)
deriving DecidableEq, Repr

/-- Whether a payload is an object (truthy with typeof object); every other
payload shape is discarded whole by sanitizeClientPayload. -/
def Payload.isObj : Payload → Bool
  | .pObj _ => true
  | _ => false

/-- The three reserved record keys the stores always strip from client input. -/
def reservedKeys : List String :=
  ["id", "createdAt", "updatedAt"]

/-- Removal of the reserved keys from an object, keeping field order: the
effect of the rest-destructuring pattern in sanitizeClientPayload. -/
def stripReserved : Obj → Obj
  | [] => []
  | (k, v) :: rest =>
    if k ∈ reservedKeys then stripReserved rest else (k, v) :: stripReserved rest

/-- sanitizeClientPayload from store.ts (the identical copies in
jsonFileStore.ts, postgresAdapter.ts and mongoAdapter.ts are this same
function): a non-object payload becomes the empty field set, and the keys id,
createdAt and updatedAt are dropped by rest-destructuring. -/
def sanitizeClientPayload : Payload → Obj
  | .pObj fields => stripReserved fields
  | _ => []

/-- CrudItem from store.ts: id plus the two ISO timestamps (abstract clock
readings here) plus the remaining fields. The reserved keys live in the
dedicated components, which is exactly the invariant the code keeps by
spreading sanitized payloads (which never contain them) over the reserved
keys. -/
structure CrudItem where
  id : String
  createdAt : Nat
  updatedAt : Nat
  fields : Obj
deriving DecidableEq, Repr

/-! ### In-memory store (createInMemoryStore, src/unnamed/part_005)

The backing Map is an association list in insertion order, as a JavaScript Map
iterates; set overwrites an existing key in place and otherwise appends. -/

/-- The backing Map of one in-memory (or JSON file) store. -/
abbrev Store := List (String × CrudItem)

/-- Map.get. -/
def mget (s : Store) (k : String) : Option CrudItem :=
  match s with
  | [] => none
  | (k₁, it) :: rest => if k₁ = k then some it else mget rest k

/-- Map.set: overwrite in place or append, preserving iteration order. -/
def mset (s : Store) (k : String) (it : CrudItem) : Store :=
  match s with
  | [] => [(k, it)]
  | (k₁, it₁) :: rest => if k₁ = k then (k, it) :: rest else (k₁, it₁) :: mset rest k it

/-- Whether the Map has a binding for the key. -/
def mhas (s : Store) (k : String) : Bool :=
  match s with
  | [] => false
  | (k₁, _) :: rest => k₁ = k || mhas rest k

/-- Removal of the binding of a key from the Map, keeping the others in order. -/
def mremove (s : Store) (k : String) : Store :=
  match s with
  | [] => []
  | (k₁, it) :: rest => if k₁ = k then mremove rest k else (k₁, it) :: mremove rest k

/-- Map.delete: removes the binding and reports whether it existed. -/
def mdelete (s : Store) (k : String) : Bool × Store :=
  (mhas s k, mremove s k)

/-- getAll of the in-memory store: the Map values in insertion order
(spread of items.values()). -/
def getAll (s : Store) : List CrudItem :=
  s.map Prod.snd

/-- getById of the in-memory store: items.get(id) with null for a miss. -/
def getById (s : Store) (id : String) : Option CrudItem :=
  mget s id

/-- create of the in-memory store: a fresh item from the sanitized payload with
both timestamps set to the same clock reading, stored under its generated id.
The generated randomUUID and the clock reading are explicit parameters. -/
def create (s : Store) (genId : String) (t : Nat) (p : Payload) : CrudItem × Store :=
  let item : CrudItem :=
    { id := genId, createdAt := t, updatedAt := t, fields := sanitizeClientPayload p }
  (item, mset s genId item)

/-- update of the in-memory store: null for a missing id, otherwise the spread
of the sanitized payload over the existing item with updatedAt refreshed to the
current clock reading. -/
def update (s : Store) (id : String) (t : Nat) (p : Payload) :
    Option CrudItem × Store :=
  match mget s id with
  | none => (none, s)
  | some ex =>
    let updated : CrudItem :=
      { id := ex.id, createdAt := ex.createdAt, updatedAt := t,
        fields := ospread ex.fields (sanitizeClientPayload p) }
    (some updated, mset s id updated)

/-- delete of the in-memory store: Map.delete. -/
def delete (s : Store) (id : String) : Bool × Store :=
  mdelete s id

/-! ### Object and Map lemmas -/

theorem oget_oset_self (o : Obj) (k : String) (v : Value) :
    oget (oset o k v) k = some v := by
  induction o with
  | nil => simp [oset, oget]
  | cons kv rest ih =>
    by_cases h : kv.1 = k
    · simp [oset, oget, h]
    · simp [oset, oget, h, ih]

theorem oget_oset_ne (o : Obj) (k k₂ : String) (v : Value) (hne : k₂ ≠ k) :
    oget (oset o k v) k₂ = oget o k₂ := by
  induction o with
  | nil => simp [oset, oget, hne, Ne.symm hne]
  | cons kv rest ih =>
    by_cases h : kv.1 = k
    · simp [oset, oget, h, hne, Ne.symm hne]
    · by_cases h₂ : kv.1 = k₂
      · simp [oset, oget, h, h₂, hne]
      · simp [oset, oget, h, h₂, ih]

/-- Lookup misses every object whose keys avoid the key looked up. -/
theorem oget_eq_none_of_not_mem (o : Obj) (k : String) (h : k ∉ okeys o) :
    oget o k = none := by
  induction o with
  | nil => rfl
  | cons kv rest ih =>
    simp only [okeys, List.map_cons, List.mem_cons, not_or] at h
    have h₁ : kv.1 ≠ k := fun he => h.1 he.symm
    simp only [oget, if_neg h₁]
    exact ih h.2

/-- Spread semantics on reads: a key bound in the patch wins, any other key
reads from the base, provided the patch binds each key once (JavaScript object
literals cannot bind a key twice). -/
theorem oget_ospread (base patch : Obj) (k : String)
    (hnd : (okeys patch).Nodup) :
    oget (ospread base patch) k =
      match oget patch k with
      | some v => some v
      | none => oget base k := by
  induction patch generalizing base with
  | nil => simp [ospread, oget]
  | cons kv rest ih =>
    obtain ⟨k₁, v₁⟩ := kv
    simp only [okeys, List.map_cons, List.nodup_cons] at hnd
    obtain ⟨hk₁, hndrest⟩ := hnd
    have hndrest₂ : (okeys rest).Nodup := hndrest
    by_cases h : k₁ = k
    · subst h
      have hnot : oget rest k₁ = none := oget_eq_none_of_not_mem rest k₁ hk₁
      simp only [ospread]
      rw [ih (oset base k₁ v₁) hndrest₂, hnot, oget_oset_self]
      simp [oget]
    · simp only [ospread, oget, if_neg h]
      rw [ih (oset base k₁ v₁) hndrest₂]
      rcases hrest : oget rest k with _ | v
      · simp [oget_oset_ne base k₁ k v₁ (fun he => h he.symm)]
      · simp

theorem oget_odeleteKey_self (o : Obj) (k : String) :
    oget (odeleteKey o k) k = none := by
  induction o with
  | nil => rfl
  | cons kv rest ih =>
    obtain ⟨k₁, v₁⟩ := kv
    by_cases h : k₁ = k
    · simpa [odeleteKey, h] using ih
    · simpa [odeleteKey, oget, h] using ih

theorem oget_odeleteKey_ne (o : Obj) (k k₂ : String) (hne : k₂ ≠ k) :
    oget (odeleteKey o k) k₂ = oget o k₂ := by
  induction o with
  | nil => rfl
  | cons kv rest ih =>
    obtain ⟨k₁, v₁⟩ := kv
    by_cases h : k₁ = k
    · simpa [odeleteKey, oget, h, Ne.symm hne] using ih
    · by_cases h₂ : k₁ = k₂
      · simp [odeleteKey, oget, h, h₂, hne]
      · simpa [odeleteKey, oget, h, h₂] using ih

theorem oget_unsetAll (o : Obj) (ks : List String) (k : String) :
    oget (unsetAll o ks) k = if k ∈ ks then none else oget o k := by
  induction ks generalizing o with
  | nil => simp [unsetAll]
  | cons k₁ rest ih =>
    by_cases h : k ∈ rest
    · simp [unsetAll, ih, h]
    · by_cases he : k = k₁
      · subst he
        simp [unsetAll, ih, h, oget_odeleteKey_self]
      · simp [unsetAll, ih, h, he, oget_odeleteKey_ne o k₁ k he]

theorem mget_mset_self (s : Store) (k : String) (it : CrudItem) :
    mget (mset s k it) k = some it := by
  induction s with
  | nil => simp [mset, mget]
  | cons kv rest ih =>
    by_cases h : kv.1 = k
    · simp [mset, mget, h]
    · simp [mset, mget, h, ih]

theorem mget_mset_ne (s : Store) (k k₂ : String) (it : CrudItem) (hne : k₂ ≠ k) :
    mget (mset s k it) k₂ = mget s k₂ := by
  induction s with
  | nil => simp [mset, mget, hne, Ne.symm hne]
  | cons kv rest ih =>
    by_cases h : kv.1 = k
    · simp [mset, mget, h, hne, Ne.symm hne]
    · by_cases h₂ : kv.1 = k₂
      · simp [mset, mget, h, h₂, hne]
      · simp [mset, mget, h, h₂, ih]

theorem mset_append_of_not_mem (s : Store) (k : String) (it : CrudItem)
    (h : mget s k = none) :
    mset s k it = s ++ [(k, it)] := by
  induction s with
  | nil => simp [mset]
  | cons kv rest ih =>
    by_cases hk : kv.1 = k
    · simp [mget, hk] at h
    · simp only [mget, if_neg hk] at h
      simp [mset, hk, ih h]

/-- Reads into a sanitized payload never hit a reserved key. -/
theorem oget_sanitize_reserved (p : Payload) (k : String) (hk : k ∈ reservedKeys) :
    oget (sanitizeClientPayload p) k = none := by
  cases p with
  | pObj fields =>
    simp only [sanitizeClientPayload]
    induction fields with
    | nil => rfl
    | cons kv rest ih =>
      obtain ⟨k₁, v₁⟩ := kv
      by_cases h : k₁ ∈ reservedKeys
      · simpa [stripReserved, h] using ih
      · have hne : k₁ ≠ k := fun he => h (he ▸ hk)
        simpa [stripReserved, h, oget, hne] using ih
  | pNull => rfl
  | pUndef => rfl
  | pNum n => rfl
  | pStr s => rfl
  | pBool b => rfl

/-- Reads into a sanitized object payload at a non-reserved key see the raw
payload field. -/
theorem oget_sanitize_not_reserved (fields : Obj) (k : String)
    (hk : k ∉ reservedKeys) :
    oget (sanitizeClientPayload (.pObj fields)) k = oget fields k := by
  simp only [sanitizeClientPayload]
  induction fields with
  | nil => rfl
  | cons kv rest ih =>
    obtain ⟨k₁, v₁⟩ := kv
    by_cases h : k₁ ∈ reservedKeys
    · have hne : k₁ ≠ k := fun he => hk (he ▸ h)
      simpa [stripReserved, h, oget, hne] using ih
    · by_cases hkk : k₁ = k
      · simp [stripReserved, h, oget, hkk, hk]
      · simpa [stripReserved, h, oget, hkk] using ih

/-! ### Declared entity schemas (src/src/model, as the adapters consume them) -/

/-- Field types a model schema can declare. -/
inductive FType
  | fString
  | fNumber
  | fBoolean
deriving DecidableEq, Repr

/-- FieldDefinition, restricted to the parts the adapters read. -/
structure FieldDef where
  ftype : FType
  isOptional : Bool
deriving DecidableEq, Repr

/-- ModelSchema: the declared fields of an entity, in declaration order. -/
abbrev ModelSchema := List (String × FieldDef)

/-- Keys of a schema, in declaration order. -/
def schemaKeys (schema : ModelSchema) : List String :=
  schema.map Prod.fst

/-! ### Sorting by a string key: the model of an ascending ORDER BY clause and
of a sort on the native document id. -/

/-- Ordered insertion by a string key. -/
def insertByKey {α : Type} (key : α → String) (x : α) : List α → List α
  | [] => [x]
  | y :: rest => if key x ≤ key y then x :: y :: rest else y :: insertByKey key x rest

/-- Insertion sort by a string key. -/
def sortByKey {α : Type} (key : α → String) : List α → List α
  | [] => []
  | x :: rest => insertByKey key x (sortByKey key rest)

theorem mem_insertByKey {α : Type} (key : α → String) (x y : α) (l : List α) :
    y ∈ insertByKey key x l ↔ y = x ∨ y ∈ l := by
  induction l with
  | nil => simp [insertByKey]
  | cons z rest ih =>
    by_cases h : key x ≤ key z
    · simp [insertByKey, h]
    · simp only [insertByKey, if_neg h, List.mem_cons, ih]
      tauto

theorem pairwise_insertByKey {α : Type} (key : α → String) (x : α) (l : List α)
    (h : l.Pairwise (fun a b => key a ≤ key b)) :
    (insertByKey key x l).Pairwise (fun a b => key a ≤ key b) := by
  induction l with
  | nil => simp [insertByKey]
  | cons y rest ih =>
    rw [List.pairwise_cons] at h
    obtain ⟨hy, hrest⟩ := h
    by_cases hle : key x ≤ key y
    · simp only [insertByKey, if_pos hle]
      refine List.Pairwise.cons ?_ (List.Pairwise.cons hy hrest)
      intro z hz
      rcases List.mem_cons.mp hz with hz | hz
      · exact hz ▸ hle
      · exact le_trans hle (hy z hz)
    · have hyx : key y ≤ key x := le_of_not_le hle
      simp only [insertByKey, if_neg hle]
      refine List.Pairwise.cons ?_ (ih hrest)
      intro z hz
      rcases (mem_insertByKey key x z rest).mp hz with hz | hz
      · exact hz ▸ hyx
      · exact hy z hz

theorem pairwise_sortByKey {α : Type} (key : α → String) (l : List α) :
    (sortByKey key l).Pairwise (fun a b => key a ≤ key b) := by
  induction l with
  | nil => simp [sortByKey]
  | cons x rest ih => exact pairwise_insertByKey key x (sortByKey key rest) ih

/-! ### Document adapter (src/src/db/mongoAdapter.ts)

The MongoDB collection is a list of stored documents in natural order; the
driver calls findOne, findOneAndUpdate, deleteOne and insertOne are their
evident functional counterparts on that list, and the generated ObjectId and
the clock are explicit parameters. -/

/-- splitStructuredPatch walking the declared schema keys over the sanitized
payload fields: absent or undefined fields are skipped, null fields collect
into the unset key list, all other fields collect into the set object. -/
def splitAux (raw : Obj) : List (String × FieldDef) → Obj × List String
  | [] => ([], [])
  | (key, _) :: rest =>
    let tail := splitAux raw rest
    match oget raw key with
    | none => tail
    | some .vUndef => tail
    | some .vNull => (tail.1, key :: tail.2)
    | some v => ((key, v) :: tail.1, tail.2)

/-- splitStructuredPatch from mongoAdapter.ts. -/
def splitStructuredPatch (schema : ModelSchema) (p : Payload) : Obj × List String :=
  splitAux (sanitizeClientPayload p) schema

/-- pickStructuredInsert from mongoAdapter.ts: the declared schema fields of the
sanitized payload that are neither absent, undefined nor null. -/
def pickAux (raw : Obj) : List (String × FieldDef) → Obj
  | [] => []
  | (key, _) :: rest =>
    match oget raw key with
    | none => pickAux raw rest
    | some .vUndef => pickAux raw rest
    | some .vNull => pickAux raw rest
    | some v => (key, v) :: pickAux raw rest

/-- pickStructuredInsert from mongoAdapter.ts. -/
def pickStructuredInsert (schema : ModelSchema) (p : Payload) : Obj :=
  pickAux (sanitizeClientPayload p) schema

/-- Whether a character is a hexadecimal digit. -/
def isHexDigit (c : Char) : Bool :=
  c.isDigit || (decide (97 ≤ c.toNat) && decide (c.toNat ≤ 102)) ||
    (decide (65 ≤ c.toNat) && decide (c.toNat ≤ 70))

/-- Whether the driver constructor new ObjectId(raw) accepts the string, i.e.
tryParseObjectId returns a parsed id: a 24 character hexadecimal string or a 12
character (12 byte) string. -/
def isValidObjectId (s : String) : Bool :=
  (s.length == 24 && s.toList.all isHexDigit) || s.length == 12

/-- buildLookup from the mongo store: the parsed id for the query filter, or
none for a string with no valid identifier format (the code then resolves the
operation to a not-found result without querying). -/
def buildLookup (id : String) : Option String :=
  if isValidObjectId id then some id else none

/-- StoredDoc from mongoAdapter.ts, with _id carried as its hex string. -/
structure StoredDoc where
  oid : String
  createdAt : Nat
  updatedAt : Nat
  fields : Obj
deriving DecidableEq, Repr

/-- A collection: the stored documents in natural (insertion) order. -/
abbrev MCollection := List StoredDoc

/-- findOne on the _id filter. -/
def mfind (col : MCollection) (oid : String) : Option StoredDoc :=
  match col with
  | [] => none
  | d :: rest => if d.oid = oid then some d else mfind rest oid

/-- In-place replacement of the matched document, as findOneAndUpdate commits
its update. -/
def mreplace (col : MCollection) (oid : String) (d₂ : StoredDoc) : MCollection :=
  match col with
  | [] => []
  | d :: rest => if d.oid = oid then d₂ :: rest else d :: mreplace rest oid d₂

/-- deleteOne on the _id filter: removes the matched document. -/
def mremoveDoc (col : MCollection) (oid : String) : MCollection :=
  match col with
  | [] => []
  | d :: rest => if d.oid = oid then rest else d :: mremoveDoc rest oid

/-- docToCrudItem from mongoAdapter.ts: _id becomes the id hex string and the
remaining document fields are spread into the item. -/
def docToCrudItem (d : StoredDoc) : CrudItem :=
  { id := d.oid, createdAt := d.createdAt, updatedAt := d.updatedAt, fields := d.fields }

/-- getAll of the mongo store: find all, sorted ascending on _id. -/
def mongoGetAll (col : MCollection) : List CrudItem :=
  (sortByKey StoredDoc.oid col).map docToCrudItem

/-- getById of the mongo store: an unparseable id resolves to null before any
query; otherwise findOne. -/
def mongoGetById (col : MCollection) (id : String) : Option CrudItem :=
  match buildLookup id with
  | none => none
  | some oid => (mfind col oid).map docToCrudItem

/-- create of the mongo store: the declared non-null schema fields of the
payload, inserted under a fresh ObjectId with both timestamps equal, and the
response built from the inserted document. -/
def mongoCreate (schema : ModelSchema) (col : MCollection) (genOid : String)
    (t : Nat) (p : Payload) : CrudItem × MCollection :=
  let doc : StoredDoc :=
    { oid := genOid, createdAt := t, updatedAt := t,
      fields := pickStructuredInsert schema p }
  (docToCrudItem doc, col ++ [doc])

/-- update of the mongo store: an unparseable id resolves to null; otherwise a
findOneAndUpdate applying the set object (plus the refreshed updatedAt) and the
unset keys to the matched document, returning the document after the update. -/
def mongoUpdate (schema : ModelSchema) (col : MCollection) (id : String)
    (t : Nat) (p : Payload) : Option CrudItem × MCollection :=
  match buildLookup id with
  | none => (none, col)
  | some oid =>
    match mfind col oid with
    | none => (none, col)
    | some d =>
      let patch := splitStructuredPatch schema p
      let d₂ : StoredDoc :=
        { oid := d.oid, createdAt := d.createdAt, updatedAt := t,
          fields := unsetAll (ospread d.fields patch.1) patch.2 }
      (some (docToCrudItem d₂), mreplace col oid d₂)

/-- delete of the mongo store: an unparseable id resolves to false; otherwise
deleteOne, reporting whether a document was matched and removed. -/
def mongoDelete (col : MCollection) (id : String) : Bool × MCollection :=
  match buildLookup id with
  | none => (false, col)
  | some oid =>
    match mfind col oid with
    | none => (false, col)
    | some _ => (true, mremoveDoc col oid)

/-! ### Relational adapter (src/src/db/postgresAdapter.ts)

The table is a list of rows; SQL statements become the evident functional
operations, the client-generated UUID and the NOW() reading are explicit
parameters. -/

/-- CrudRow from postgresAdapter.ts: the row shape of the per-entity table. -/
structure CrudRow where
  id : String
  created_at : Nat
  updated_at : Nat
  data : Obj
deriving DecidableEq, Repr

/-- A per-entity table: rows in insertion order. -/
abbrev PgTable := List CrudRow

/-- rowToCrudItem from postgresAdapter.ts. -/
def rowToCrudItem (r : CrudRow) : CrudItem :=
  { id := r.id, createdAt := r.created_at, updatedAt := r.updated_at, fields := r.data }

/-- Effect of JSON.stringify on an object of runtime values before it reaches
the jsonb column: undefined-valued fields are omitted by serialization, every
other field survives unchanged. -/
def jsonSerializeObj : Obj → Obj
  | [] => []
  | (_, .vUndef) :: rest => jsonSerializeObj rest
  | (k, v) :: rest => (k, v) :: jsonSerializeObj rest

/-- WHERE id equals the given string: the first (unique, by primary key)
matching row. -/
def pgFind (tbl : PgTable) (id : String) : Option CrudRow :=
  match tbl with
  | [] => none
  | r :: rest => if r.id = id then some r else pgFind rest id

/-- UPDATE of the matched row in place. -/
def pgReplace (tbl : PgTable) (id : String) (r₂ : CrudRow) : PgTable :=
  match tbl with
  | [] => []
  | r :: rest => if r.id = id then r₂ :: rest else r :: pgReplace rest id r₂

/-- getAll of the relational store: SELECT ... ORDER BY id ASC. -/
def pgGetAll (tbl : PgTable) : List CrudItem :=
  (sortByKey CrudRow.id tbl).map rowToCrudItem

/-- getById of the relational store. -/
def pgGetById (tbl : PgTable) (id : String) : Option CrudItem :=
  (pgFind tbl id).map rowToCrudItem

/-- create of the relational store: INSERT of a client-generated UUID with the
serialized sanitized payload as the data column; created_at and updated_at take
the same NOW() default. -/
def pgCreate (tbl : PgTable) (genId : String) (t : Nat) (p : Payload) :
    CrudItem × PgTable :=
  let row : CrudRow :=
    { id := genId, created_at := t, updated_at := t,
      data := jsonSerializeObj (sanitizeClientPayload p) }
  (rowToCrudItem row, tbl ++ [row])

/-- update of the relational store: jsonb concatenation of the stored data with
the serialized sanitized patch (patch fields win, no field removal) and
updated_at = NOW(); null when no row matched. -/
def pgUpdate (tbl : PgTable) (id : String) (t : Nat) (p : Payload) :
    Option CrudItem × PgTable :=
  match pgFind tbl id with
  | none => (none, tbl)
  | some r =>
    let r₂ : CrudRow :=
      { id := r.id, created_at := r.created_at, updated_at := t,
        data := ospread r.data (jsonSerializeObj (sanitizeClientPayload p)) }
    (some (rowToCrudItem r₂), pgReplace tbl id r₂)

/-- delete of the relational store: DELETE ... WHERE id equals the given
string, reporting rowCount greater than zero. -/
def pgDelete (tbl : PgTable) (id : String) : Bool × PgTable :=
  match pgFind tbl id with
  | none => (false, tbl)
  | some _ => (true, tbl.filter (fun r => r.id ≠ id))

/-! ### File store (createJsonFileStore, src/unnamed/part_006)

The file system is a finite map from paths to abstract file contents; a content
is classified the way loadPersistedData discriminates it: a well-formed
persisted document, some other parseable JSON value, or text that JSON.parse
rejects. Read errors of an existing file (the readFileSync catch) are not
modelled; Date.now() and process.pid are explicit parameters. -/

/-- Abstract content of a file as far as loadPersistedData discriminates it. -/
inductive Content
  | jsonItems (items : List CrudItem)
  | jsonOther
  | notJson (raw : String)
deriving DecidableEq, Repr

/-- The file system: path to content bindings. -/
abbrev FileSys := List (String × Content)

/-- Read of a path (also the existence check). -/
def fsRead (fs : FileSys) (p : String) : Option Content :=
  match fs with
  | [] => none
  | (p₁, c) :: rest => if p₁ = p then some c else fsRead rest p

/-- writeFileSync: binds the path to the content, overwriting in place. -/
def fsWrite (fs : FileSys) (p : String) (c : Content) : FileSys :=
  match fs with
  | [] => [(p, c)]
  | (p₁, c₁) :: rest => if p₁ = p then (p, c) :: rest else (p₁, c₁) :: fsWrite rest p c

/-- Removal of a path binding. -/
def fsRemove (fs : FileSys) (p : String) : FileSys :=
  match fs with
  | [] => []
  | (p₁, c) :: rest => if p₁ = p then fsRemove rest p else (p₁, c) :: fsRemove rest p

/-- renameSync: atomically moves the source content over the destination. The
source is assumed bound (the code only renames files it just observed). -/
def fsRename (fs : FileSys) (src dst : String) : FileSys :=
  match fsRead fs src with
  | none => fs
  | some c => fsWrite (fsRemove fs src) dst c

/-- The backup path a corrupt file is renamed to. -/
def corruptBackupPath (filePath : String) (tNow : Nat) : String :=
  filePath ++ ".corrupt-" ++ toString tNow

/-- loadPersistedData from jsonFileStore.ts: an absent file yields the empty
item list; unparseable content is renamed aside to the timestamped backup path
and yields the empty list; parseable content that is not a record with an items
array yields the empty list; a persisted document yields its items (the
isCrudItem filter is the identity here because jsonItems carries typed
items). -/
def loadPersistedData (fs : FileSys) (filePath : String) (tNow : Nat) :
    List CrudItem × FileSys :=
  match fsRead fs filePath with
  | none => ([], fs)
  | some (.notJson _) => ([], fsRename fs filePath (corruptBackupPath filePath tNow))
  | some .jsonOther => ([], fs)
  | some (.jsonItems items) => (items, fs)

/-- The temporary path of one atomic write. -/
def tmpWritePath (filePath : String) (pid tNow : Nat) : String :=
  filePath ++ ".tmp-" ++ toString pid ++ "-" ++ toString tNow

/-- First half of atomicWriteJson: writeFileSync of the serialized document to
the temporary path (the state a crash before the rename leaves behind). -/
def atomicWriteStep1 (fs : FileSys) (filePath : String) (pid tNow : Nat)
    (items : List CrudItem) : FileSys :=
  fsWrite fs (tmpWritePath filePath pid tNow) (.jsonItems items)

/-- Second half of atomicWriteJson: renameSync of the temporary path over the
target. -/
def atomicWriteStep2 (fs : FileSys) (filePath : String) (pid tNow : Nat) : FileSys :=
  fsRename fs (tmpWritePath filePath pid tNow) filePath

/-- atomicWriteJson from jsonFileStore.ts (mkdirSync is a no-op here:
directories are not modelled). -/
def atomicWriteJson (fs : FileSys) (filePath : String) (pid tNow : Nat)
    (items : List CrudItem) : FileSys :=
  atomicWriteStep2 (atomicWriteStep1 fs filePath pid tNow items) filePath pid tNow

/-- State of one JSON file store: the in-memory index plus the file system. -/
structure JsonStoreState where
  items : Store
  fs : FileSys
deriving DecidableEq, Repr

/-- createJsonFileStore start-up: loadPersistedData, then the index built from
the loaded items keyed by id. -/
def jsonStoreInit (fs : FileSys) (filePath : String) (tNow : Nat) : JsonStoreState :=
  let loaded := loadPersistedData fs filePath tNow
  { items := loaded.1.map (fun it => (it.id, it)), fs := loaded.2 }

/-- flush from createJsonFileStore: full-file rewrite of the current snapshot
through the temp-then-rename sequence. -/
def jsFlush (st : JsonStoreState) (filePath : String) (pid tW : Nat) : FileSys :=
  atomicWriteJson st.fs filePath pid tW (getAll st.items)

/-- getAll of the file store: the in-memory index only, no disk read. -/
def jsGetAll (st : JsonStoreState) : List CrudItem :=
  getAll st.items

/-- getById of the file store: the in-memory index only, no disk read. -/
def jsGetById (st : JsonStoreState) (id : String) : Option CrudItem :=
  mget st.items id

/-- create of the file store: the in-memory create followed by a flush. -/
def jsCreate (st : JsonStoreState) (filePath : String) (pid : Nat) (genId : String)
    (t tW : Nat) (p : Payload) : CrudItem × JsonStoreState :=
  let r := create st.items genId t p
  let st₂ : JsonStoreState := { items := r.2, fs := st.fs }
  (r.1, { st₂ with fs := jsFlush st₂ filePath pid tW })

/-- update of the file store: the in-memory update followed by a flush (the
code flushes also when the update missed, writing the unchanged snapshot). -/
def jsUpdate (st : JsonStoreState) (filePath : String) (pid : Nat) (id : String)
    (t tW : Nat) (p : Payload) : Option CrudItem × JsonStoreState :=
  match mget st.items id with
  | none => (none, st)
  | some _ =>
    let r := update st.items id t p
    let st₂ : JsonStoreState := { items := r.2, fs := st.fs }
    (r.1, { st₂ with fs := jsFlush st₂ filePath pid tW })

/-- delete of the file store: the in-memory delete, flushing only when a
binding was removed. -/
def jsDelete (st : JsonStoreState) (filePath : String) (pid : Nat) (id : String)
    (tW : Nat) : Bool × JsonStoreState :=
  let r := mdelete st.items id
  if r.1 then
    let st₂ : JsonStoreState := { items := r.2, fs := st.fs }
    (true, { st₂ with fs := jsFlush st₂ filePath pid tW })
  else (false, st)

/-! ### Adapter factory (createDbAdapter in db/adapter.ts, embedded after the
separator in src/src/db/mongoAdapter.ts) -/

/-- DbConfig as createDbAdapter consults it. The json directory, postgres
schema and mongo collection naming settings never participate in the missing
setting checks and are omitted. -/
structure DbConfig where
  adapter : Option String
  pgConnectionString : Option String
  mongoConnectionString : Option String
  mongoDbName : Option String
deriving DecidableEq, Repr

/-- The process environment variables consulted as fallbacks. -/
structure Env where
  databaseUrl : Option String
  mongodbUri : Option String
  mongodbDb : Option String
deriving DecidableEq, Repr

/-- The fallback chain config value then environment variable: the explicit
configuration value wins whenever it is present. -/
def resolveSetting (cfgVal envVal : Option String) : Option String :=
  match cfgVal with
  | some v => some v
  | none => envVal

/-- The falsiness test the factory applies to a resolved setting: absent, or
present but the empty string. -/
def settingMissing : Option String → Bool
  | none => true
  | some s => s.isEmpty

/-- The adapter createDbAdapter constructs, by kind with its checked inputs. -/
inductive AdapterResult
  | memory
  | jsonFile
  | postgres (connectionString : String)
  | mongodb (connectionString dbName : String)
deriving DecidableEq, Repr

/-- The exact postgres missing connection string message from adapter.ts. -/
def pgConnErrorMsg : String :=
  "Postgres db adapter requires a connection string. Set db.postgres.connectionString in backend.config.*, or set DATABASE_URL."

/-- The exact mongo missing connection string message from adapter.ts. -/
def mongoConnErrorMsg : String :=
  "MongoDB db adapter requires a connection string. Set db.mongodb.connectionString in backend.config.*, or set MONGODB_URI."

/-- The exact mongo missing database name message from adapter.ts. -/
def mongoDbNameErrorMsg : String :=
  "MongoDB db adapter requires a database name. Set db.mongodb.dbName in backend.config.*, or set MONGODB_DB."

/-- Whether the first character list starts the second. -/
def charListStarts : List Char → List Char → Bool
  | [], _ => true
  | _ :: _, [] => false
  | c :: cs, d :: ds => c == d && charListStarts cs ds

/-- Whether the first character list occurs inside the second. -/
def charListInside (needle : List Char) : List Char → Bool
  | [] => charListStarts needle []
  | d :: rest => charListStarts needle (d :: rest) || charListInside needle rest

/-- Substring containment, on the character lists of the two strings. -/
def containsStr (hay needle : String) : Bool :=
  charListInside needle.toList hay.toList

/-- createDbAdapter from adapter.ts: kind dispatch defaulting to memory, with
the synchronous configuration errors raised (as error values of the shallow
embedding) before any store or client is constructed. -/
def createDbAdapter (config : DbConfig) (env : Env) : Except String AdapterResult :=
  let adapter := config.adapter.getD "memory"
  if adapter = "memory" then .ok .memory
  else if adapter = "json" then .ok .jsonFile
  else if adapter = "postgres" then
    let conn := resolveSetting config.pgConnectionString env.databaseUrl
    if settingMissing conn then .error pgConnErrorMsg
    else .ok (.postgres (conn.getD ""))
  else if adapter = "mongodb" then
    let conn := resolveSetting config.mongoConnectionString env.mongodbUri
    let dbName := resolveSetting config.mongoDbName env.mongodbDb
    if settingMissing conn then .error mongoConnErrorMsg
    else if settingMissing dbName then .error mongoDbNameErrorMsg
    else .ok (.mongodb (conn.getD "") (dbName.getD ""))
  else .ok .memory

/-! ### Bootstrap memoization (ensureTable in postgresAdapter.ts and
ensureCollection in mongoAdapter.ts follow the identical discipline)

Under the run-to-completion semantics of the host runtime the synchronous
head of a call (cache lookup, promise construction, cache store) is atomic;
an in-flight or settled bootstrap promise is an abstract identifier here, and
starting a bootstrap attempt allocates a fresh one. -/

/-- The memo state of one adapter: the promise cache keyed by the full table or
collection name, plus the allocator of attempt identifiers. -/
structure BootState where
  cache : List (String × Nat)
  nextId : Nat
deriving DecidableEq, Repr

/-- Cache lookup. -/
def bootLookup (cache : List (String × Nat)) (key : String) : Option Nat :=
  match cache with
  | [] => none
  | (k, p) :: rest => if k = key then some p else bootLookup rest key

/-- Cache eviction of one key. -/
def bootRemove (cache : List (String × Nat)) (key : String) : List (String × Nat) :=
  match cache with
  | [] => []
  | (k, p) :: rest =>
    if k = key then bootRemove rest key else (k, p) :: bootRemove rest key

/-- One ensureTable/ensureCollection call up to returning the shared promise: a
cached promise is returned as is; otherwise a fresh attempt starts and its
guarded promise is stored under the key before it is returned. -/
def ensureResource (st : BootState) (key : String) : BootState × Nat :=
  match bootLookup st.cache key with
  | some p => (st, p)
  | none =>
    let p := st.nextId
    ({ cache := (key, p) :: st.cache, nextId := p + 1 }, p)

/-- The rejection handler the guarded promise carries: a failed attempt evicts
its key from the cache (so exactly the next caller starts one fresh attempt). -/
def evictOnFailure (st : BootState) (key : String) : BootState :=
  { st with cache := bootRemove st.cache key }

/-- A sequence of ensure calls, collecting the promises handed out. -/
def runEnsures (st : BootState) : List String → BootState × List Nat
  | [] => (st, [])
  | key :: rest =>
    let r := ensureResource st key
    let rr := runEnsures r.1 rest
    (rr.1, r.2 :: rr.2)

/-- Well-formedness of the memo state: every cached promise was allocated. -/
def BootWF (st : BootState) : Prop :=
  ∀ k p, bootLookup st.cache k = some p → p < st.nextId

/-! ### Auxiliary lemmas -/

theorem stripReserved_sublist (fields : Obj) :
    List.Sublist (stripReserved fields) fields := by
  induction fields with
  | nil => simp [stripReserved]
  | cons kv rest ih =>
    obtain ⟨k, v⟩ := kv
    by_cases h : k ∈ reservedKeys
    · simpa [stripReserved, h] using ih.cons (k, v)
    · simpa [stripReserved, h] using ih.cons₂ (k, v)

theorem okeys_stripReserved_nodup (fields : Obj) (h : (okeys fields).Nodup) :
    (okeys (stripReserved fields)).Nodup :=
  ((stripReserved_sublist fields).map Prod.fst).nodup h

theorem stripReserved_idem (fields : Obj) :
    stripReserved (stripReserved fields) = stripReserved fields := by
  induction fields with
  | nil => rfl
  | cons kv rest ih =>
    obtain ⟨k, v⟩ := kv
    by_cases h : k ∈ reservedKeys
    · simpa [stripReserved, h] using ih
    · simp [stripReserved, h, ih]

theorem oget_stripReserved_none (fields : Obj) (k : String)
    (h : oget fields k = none) : oget (stripReserved fields) k = none := by
  by_cases hk : k ∈ reservedKeys
  · simpa [sanitizeClientPayload] using oget_sanitize_reserved (.pObj fields) k hk
  · have := oget_sanitize_not_reserved fields k hk
    simp only [sanitizeClientPayload] at this
    rw [this]
    exact h

theorem mhas_false_of_mget_none (s : Store) (k : String) (h : mget s k = none) :
    mhas s k = false := by
  induction s with
  | nil => rfl
  | cons kv rest ih =>
    by_cases hk : kv.1 = k
    · simp [mget, hk] at h
    · simp only [mget, if_neg hk] at h
      simp [mhas, hk, ih h]

theorem mremove_of_mget_none (s : Store) (k : String) (h : mget s k = none) :
    mremove s k = s := by
  induction s with
  | nil => rfl
  | cons kv rest ih =>
    obtain ⟨k₁, it⟩ := kv
    by_cases hk : k₁ = k
    · simp [mget, hk] at h
    · simp only [mget, if_neg hk] at h
      simp [mremove, hk, ih h]

theorem mhas_mremove_self (s : Store) (k : String) :
    mhas (mremove s k) k = false := by
  induction s with
  | nil => rfl
  | cons kv rest ih =>
    obtain ⟨k₁, it⟩ := kv
    by_cases hk : k₁ = k
    · simpa [mremove, hk] using ih
    · simpa [mremove, mhas, hk] using ih

theorem mfind_append_singleton (col : MCollection) (oid : String) (d : StoredDoc)
    (h : mfind col oid = none) :
    mfind (col ++ [d]) oid = if d.oid = oid then some d else none := by
  induction col with
  | nil => simp [mfind]
  | cons d₁ rest ih =>
    by_cases hd : d₁.oid = oid
    · simp [mfind, hd] at h
    · simp only [mfind, if_neg hd] at h
      simpa [mfind, hd] using ih h

theorem pgFind_append_singleton (tbl : PgTable) (id : String) (r : CrudRow)
    (h : pgFind tbl id = none) :
    pgFind (tbl ++ [r]) id = if r.id = id then some r else none := by
  induction tbl with
  | nil => simp [pgFind]
  | cons r₁ rest ih =>
    by_cases hr : r₁.id = id
    · simp [pgFind, hr] at h
    · simp only [pgFind, if_neg hr] at h
      simpa [pgFind, hr] using ih h

theorem splitAux_nil (schema : List (String × FieldDef)) :
    splitAux [] schema = ([], []) := by
  induction schema with
  | nil => rfl
  | cons kv rest ih => simp [splitAux, ih, oget]

theorem pickAux_nil (schema : List (String × FieldDef)) :
    pickAux [] schema = [] := by
  induction schema with
  | nil => rfl
  | cons kv rest ih => simp [pickAux, ih, oget]

theorem mem_unset_splitAux (raw : Obj) (schema : List (String × FieldDef))
    (k : String) (hk : k ∈ schema.map Prod.fst) (hv : oget raw k = some .vNull) :
    k ∈ (splitAux raw schema).2 := by
  induction schema with
  | nil => simp at hk
  | cons kv rest ih =>
    obtain ⟨key, fd⟩ := kv
    rcases List.mem_cons.mp hk with he | hmem
    · subst he
      simp [splitAux, hv]
    · have htail := ih hmem
      rcases hraw : oget raw key with _ | v
      · simpa [splitAux, hraw] using htail
      · cases v with
        | vNull => simpa [splitAux, hraw] using List.mem_cons_of_mem key htail
        | vUndef => simpa [splitAux, hraw] using htail
        | vStr s => simpa [splitAux, hraw] using htail
        | vNum n => simpa [splitAux, hraw] using htail
        | vBool b => simpa [splitAux, hraw] using htail

theorem okeys_pickAux_subset (raw : Obj) (schema : List (String × FieldDef))
    (k : String) (hk : k ∈ okeys (pickAux raw schema)) :
    k ∈ schema.map Prod.fst := by
  induction schema with
  | nil => simp [pickAux, okeys] at hk
  | cons kv rest ih =>
    obtain ⟨key, fd⟩ := kv
    rcases hraw : oget raw key with _ | v
    · simp only [pickAux, hraw] at hk
      exact List.mem_cons_of_mem key (ih hk)
    · cases v with
      | vNull =>
        simp only [pickAux, hraw] at hk
        exact List.mem_cons_of_mem key (ih hk)
      | vUndef =>
        simp only [pickAux, hraw] at hk
        exact List.mem_cons_of_mem key (ih hk)
      | vStr s =>
        simp only [pickAux, hraw, okeys, List.map_cons] at hk
        rcases List.mem_cons.mp hk with he | hmem
        · exact he ▸ List.mem_cons_self key _
        · exact List.mem_cons_of_mem key (ih hmem)
      | vNum n =>
        simp only [pickAux, hraw, okeys, List.map_cons] at hk
        rcases List.mem_cons.mp hk with he | hmem
        · exact he ▸ List.mem_cons_self key _
        · exact List.mem_cons_of_mem key (ih hmem)
      | vBool b =>
        simp only [pickAux, hraw, okeys, List.map_cons] at hk
        rcases List.mem_cons.mp hk with he | hmem
        · exact he ▸ List.mem_cons_self key _
        · exact List.mem_cons_of_mem key (ih hmem)

theorem oget_pickAux_none (raw : Obj) (schema : List (String × FieldDef))
    (k : String) (h : oget raw k = none) :
    oget (pickAux raw schema) k = none := by
  induction schema with
  | nil => rfl
  | cons kv rest ih =>
    obtain ⟨key, fd⟩ := kv
    rcases hraw : oget raw key with _ | v
    · simpa [pickAux, hraw] using ih
    · have hne : key ≠ k := by
        intro he
        rw [he, h] at hraw
        exact Option.noConfusion hraw
      cases v with
      | vNull => simpa [pickAux, hraw] using ih
      | vUndef => simpa [pickAux, hraw] using ih
      | vStr s => simpa [pickAux, hraw, oget, hne] using ih
      | vNum n => simpa [pickAux, hraw, oget, hne] using ih
      | vBool b => simpa [pickAux, hraw, oget, hne] using ih

theorem fsRead_fsWrite_self (fs : FileSys) (p : String) (c : Content) :
    fsRead (fsWrite fs p c) p = some c := by
  induction fs with
  | nil => simp [fsWrite, fsRead]
  | cons pc rest ih =>
    by_cases h : pc.1 = p
    · simp [fsWrite, fsRead, h]
    · simp [fsWrite, fsRead, h, ih]

theorem fsRead_fsWrite_ne (fs : FileSys) (p q : String) (c : Content) (hne : q ≠ p) :
    fsRead (fsWrite fs p c) q = fsRead fs q := by
  induction fs with
  | nil => simp [fsWrite, fsRead, hne, Ne.symm hne]
  | cons pc rest ih =>
    by_cases h : pc.1 = p
    · simp [fsWrite, fsRead, h, hne, Ne.symm hne]
    · by_cases h₂ : pc.1 = q
      · simp [fsWrite, fsRead, h, h₂, hne]
      · simp [fsWrite, fsRead, h, h₂, ih]

theorem fsRead_fsRemove_self (fs : FileSys) (p : String) :
    fsRead (fsRemove fs p) p = none := by
  induction fs with
  | nil => rfl
  | cons pc rest ih =>
    obtain ⟨p₁, c⟩ := pc
    by_cases h : p₁ = p
    · simpa [fsRemove, h] using ih
    · simpa [fsRemove, fsRead, h] using ih

theorem fsRead_fsRemove_ne (fs : FileSys) (p q : String) (hne : q ≠ p) :
    fsRead (fsRemove fs p) q = fsRead fs q := by
  induction fs with
  | nil => rfl
  | cons pc rest ih =>
    obtain ⟨p₁, c⟩ := pc
    by_cases h : p₁ = p
    · simpa [fsRemove, fsRead, h, Ne.symm hne] using ih
    · by_cases h₂ : p₁ = q
      · simp [fsRemove, fsRead, h, h₂, hne]
      · simpa [fsRemove, fsRead, h, h₂] using ih

theorem append_ne_left (a b : String) (hb : 0 < b.length) : a ++ b ≠ a := by
  intro h
  have hlen := congrArg String.length h
  rw [String.length_append] at hlen
  omega

theorem corruptBackupPath_ne (filePath : String) (tNow : Nat) :
    corruptBackupPath filePath tNow ≠ filePath := by
  have h9 : (".corrupt-" : String).length = 9 := by decide
  have hlen : 0 < ((".corrupt-" : String) ++ toString tNow).length := by
    rw [String.length_append, h9]
    omega
  have h := append_ne_left filePath (".corrupt-" ++ toString tNow) hlen
  simpa [corruptBackupPath, String.append_assoc] using h

theorem tmpWritePath_ne (filePath : String) (pid tNow : Nat) :
    tmpWritePath filePath pid tNow ≠ filePath := by
  have h5 : (".tmp-" : String).length = 5 := by decide
  have hlen :
      0 < ((".tmp-" : String) ++ (toString pid ++ ("-" ++ toString tNow))).length := by
    rw [String.length_append, h5]
    omega
  have h :=
    append_ne_left filePath (".tmp-" ++ (toString pid ++ ("-" ++ toString tNow))) hlen
  simpa [tmpWritePath, String.append_assoc] using h

theorem bootLookup_bootRemove_self (cache : List (String × Nat)) (key : String) :
    bootLookup (bootRemove cache key) key = none := by
  induction cache with
  | nil => rfl
  | cons kp rest ih =>
    obtain ⟨k, p⟩ := kp
    by_cases h : k = key
    · simpa [bootRemove, h] using ih
    · simpa [bootRemove, bootLookup, h] using ih

theorem runEnsures_replicate_hit (st : BootState) (key : String) (p : Nat) (n : Nat)
    (h : bootLookup st.cache key = some p) :
    runEnsures st (List.replicate n key) = (st, List.replicate n p) := by
  induction n with
  | zero => simp [runEnsures]
  | succ n ih =>
    simp only [List.replicate_succ, runEnsures, ensureResource, h, ih]

theorem oget_jsonSerializeObj_none (o : Obj) (k : String) (h : oget o k = none) :
    oget (jsonSerializeObj o) k = none := by
  induction o with
  | nil => rfl
  | cons kv rest ih =>
    obtain ⟨k₁, v⟩ := kv
    by_cases hk : k₁ = k
    · simp [oget, hk] at h
    · simp only [oget, if_neg hk] at h
      cases v with
      | vUndef => simpa [jsonSerializeObj] using ih h
      | vNull => simpa [jsonSerializeObj, oget, hk] using ih h
      | vStr s => simpa [jsonSerializeObj, oget, hk] using ih h
      | vNum n => simpa [jsonSerializeObj, oget, hk] using ih h
      | vBool b => simpa [jsonSerializeObj, oget, hk] using ih h

theorem oget_jsonSerializeObj_some (o : Obj) (k : String) (v : Value)
    (hv : v ≠ .vUndef) (h : oget o k = some v) :
    oget (jsonSerializeObj o) k = some v := by
  induction o with
  | nil => simp [oget] at h
  | cons kv rest ih =>
    obtain ⟨k₁, v₁⟩ := kv
    by_cases hk : k₁ = k
    · simp only [oget, if_pos hk] at h
      injection h with h
      subst h
      cases v₁ with
      | vUndef => exact absurd rfl hv
      | vNull => simp [jsonSerializeObj, oget, hk]
      | vStr s => simp [jsonSerializeObj, oget, hk]
      | vNum n => simp [jsonSerializeObj, oget, hk]
      | vBool b => simp [jsonSerializeObj, oget, hk]
    · simp only [oget, if_neg hk] at h
      cases v₁ with
      | vUndef => simpa [jsonSerializeObj] using ih h
      | vNull => simpa [jsonSerializeObj, oget, hk] using ih h
      | vStr s => simpa [jsonSerializeObj, oget, hk] using ih h
      | vNum n => simpa [jsonSerializeObj, oget, hk] using ih h
      | vBool b => simpa [jsonSerializeObj, oget, hk] using ih h

theorem oget_jsonSerializeObj_undef (o : Obj) (k : String)
    (hnd : (okeys o).Nodup) (h : oget o k = some .vUndef) :
    oget (jsonSerializeObj o) k = none := by
  induction o with
  | nil => simp [oget] at h
  | cons kv rest ih =>
    obtain ⟨k₁, v₁⟩ := kv
    simp only [okeys, List.map_cons, List.nodup_cons] at hnd
    obtain ⟨hk₁, hndrest⟩ := hnd
    by_cases hk : k₁ = k
    · simp only [oget, if_pos hk] at h
      injection h with h
      subst h
      simp only [jsonSerializeObj]
      subst hk
      exact oget_jsonSerializeObj_none rest k₁ (oget_eq_none_of_not_mem rest k₁ hk₁)
    · simp only [oget, if_neg hk] at h
      cases v₁ with
      | vUndef => simpa [jsonSerializeObj] using ih hndrest h
      | vNull => simpa [jsonSerializeObj, oget, hk] using ih hndrest h
      | vStr s => simpa [jsonSerializeObj, oget, hk] using ih hndrest h
      | vNum n => simpa [jsonSerializeObj, oget, hk] using ih hndrest h
      | vBool b => simpa [jsonSerializeObj, oget, hk] using ih hndrest h

/-! ### Concrete sample data used by the witnesses -/

/-- Sample stored item. -/
def exItem : CrudItem :=
  { id := "id1", createdAt := 0, updatedAt := 0,
    fields := [("a", .vNum 1), ("b", .vNum 2)] }

/-- Sample memory store holding exItem. -/
def exStore : Store := [("id1", exItem)]

/-- Sample entity schema with a required and an optional field. -/
def exSchema : ModelSchema :=
  [("a", { ftype := .fNumber, isOptional := false }),
   ("b", { ftype := .fNumber, isOptional := true })]

/-- A well-formed 24 character hexadecimal ObjectId string. -/
def exOid : String := "0123456789abcdef01234567"

/-- Sample stored document. -/
def exDoc : StoredDoc :=
  { oid := exOid, createdAt := 0, updatedAt := 0,
    fields := [("a", .vNum 1), ("b", .vNum 2)] }

/-- Sample collection holding exDoc. -/
def exCol : MCollection := [exDoc]

/-! ### C1 -/

/-- C1: update on an existing record performs a shallow merge (payload fields
overwrite, fields absent from the payload keep their stored value), refreshes
updatedAt to the update clock reading (strictly later than the stored stamp
whenever the clock advanced between the writes), returns absent for a missing
id, and on the document adapter a declared field sent as null is removed from
the stored record. -/
theorem update_shallow_merge_contract :
    (∀ (s : Store) (i : String) (ex : CrudItem) (pf : Obj) (t₂ : Nat),
      mget s i = some ex → (okeys pf).Nodup →
      ∃ u, (update s i t₂ (.pObj pf)).1 = some u ∧
        u.id = ex.id ∧ u.createdAt = ex.createdAt ∧ u.updatedAt = t₂ ∧
        (ex.updatedAt < t₂ → ex.updatedAt < u.updatedAt) ∧
        (∀ k v, k ∉ reservedKeys → oget pf k = some v → oget u.fields k = some v) ∧
        (∀ k, oget pf k = none → oget u.fields k = oget ex.fields k)) ∧
    (∀ (s : Store) (i : String) (t₂ : Nat) (p : Payload),
      mget s i = none → update s i t₂ p = (none, s)) ∧
    (∀ (schema : ModelSchema) (col : MCollection) (d : StoredDoc) (pf : Obj)
        (t₂ : Nat) (k : String),
      isValidObjectId d.oid = true → mfind col d.oid = some d →
      k ∈ schemaKeys schema → k ∉ reservedKeys → oget pf k = some .vNull →
      ∃ u, (mongoUpdate schema col d.oid t₂ (.pObj pf)).1 = some u ∧
        oget u.fields k = none ∧ u.updatedAt = t₂) := by
  refine ⟨?_, ?_, ?_⟩
  · intro s i ex pf t₂ hmem hnd
    have hnd₂ : (okeys (stripReserved pf)).Nodup := okeys_stripReserved_nodup pf hnd
    simp only [update, hmem, sanitizeClientPayload]
    refine ⟨_, rfl, rfl, rfl, rfl, fun h => h, ?_, ?_⟩
    · intro k v hk hv
      have hs : oget (stripReserved pf) k = oget pf k := by
        have := oget_sanitize_not_reserved pf k hk
        simpa [sanitizeClientPayload] using this
      rw [oget_ospread ex.fields _ k hnd₂, hs, hv]
    · intro k hnone
      rw [oget_ospread ex.fields _ k hnd₂, oget_stripReserved_none pf k hnone]
  · intro s i t₂ p hmem
    simp [update, hmem]
  · intro schema col d pf t₂ k hvalid hfind hks hk hval
    have hnull : oget (sanitizeClientPayload (.pObj pf)) k = some .vNull := by
      rw [oget_sanitize_not_reserved pf k hk]
      exact hval
    have hunset : k ∈ (splitStructuredPatch schema (.pObj pf)).2 :=
      mem_unset_splitAux _ schema k hks hnull
    simp only [mongoUpdate, buildLookup, hvalid, if_true, hfind]
    refine ⟨_, rfl, ?_, rfl⟩
    show oget (unsetAll (ospread d.fields (splitStructuredPatch schema (.pObj pf)).1)
      (splitStructuredPatch schema (.pObj pf)).2) k = none
    rw [oget_unsetAll]
    simp [hunset]

/-- Witness for C1: updating item id1 of the sample store with payload b = 3 at
clock 1 yields b = 3, preserves a = 1 and stamps a strictly later updatedAt;
updating a missing id returns absent; sending b = null through the document
adapter removes the stored field b. -/
theorem update_shallow_merge_contract_witness :
    (∃ u, (update exStore "id1" 1 (.pObj [("b", Value.vNum 3)])).1 = some u ∧
      oget u.fields "b" = some (Value.vNum 3) ∧
      oget u.fields "a" = some (Value.vNum 1) ∧
      u.updatedAt = 1 ∧ exItem.updatedAt < u.updatedAt) ∧
    update exStore "missing" 1 (.pObj []) = (none, exStore) ∧
    (∃ u, (mongoUpdate exSchema exCol exOid 5 (.pObj [("b", Value.vNull)])).1 = some u ∧
      oget u.fields "b" = none ∧ u.updatedAt = 5) := by
  obtain ⟨h₁, h₂, h₃⟩ := update_shallow_merge_contract
  refine ⟨?_, h₂ exStore "missing" 1 (.pObj []) (by decide), ?_⟩
  · obtain ⟨u, hu, hid, hc, hup, hlt, hover, hpres⟩ :=
      h₁ exStore "id1" exItem [("b", Value.vNum 3)] 1 (by decide) (by decide)
    refine ⟨u, hu, hover "b" (Value.vNum 3) (by decide) (by decide), ?_,
      hup, hlt (by decide)⟩
    rw [hpres "a" (by decide)]
    decide
  · obtain ⟨u, hu, hnone, hup⟩ :=
      h₃ exSchema exCol exDoc [("b", Value.vNull)] 5 "b" (by decide) (by decide)
        (by decide) (by decide) (by decide)
    exact ⟨u, hu, hnone, hup⟩

/-! ### C2 -/

/-- C2 counterexample: on the memory backend, create with a payload holding a
field outside the declared schema stores that field, so the stored fields are
not the declared schema fields present in the payload. -/
theorem create_schema_fields_counterexample :
    (create [] "id1" 0
        (.pObj [("title", Value.vStr "x"), ("extra", Value.vNum 1)])).1.fields
      = [("title", Value.vStr "x"), ("extra", Value.vNum 1)] ∧
    schemaKeys [("title", { ftype := FType.fString, isOptional := false })] = ["title"] ∧
    ((okeys (create [] "id1" 0
          (.pObj [("title", Value.vStr "x"), ("extra", Value.vNum 1)])).1.fields).all
        (fun k => decide (k ∈ schemaKeys
          [("title", { ftype := FType.fString, isOptional := false })])))
      = false := by
  decide

/-- C2 amended: on every backend create returns the freshly generated id with
createdAt equal to updatedAt and never lets client-sent id, createdAt or
updatedAt influence the stored record; the memory and file backends store
exactly the non-reserved fields of the payload; the relational backend stores
exactly the non-reserved payload fields that survive JSON serialization (a
field whose value is undefined is dropped, every other non-reserved field is
kept, and no other field appears); the document adapter stores exactly the
declared schema fields present and non-null in the payload. -/
theorem create_sanitized_fields_contract :
    (∀ (s : Store) (genId : String) (t : Nat) (p : Payload), genId ≠ "" →
      (create s genId t p).1.id = genId ∧ (create s genId t p).1.id ≠ "" ∧
      (create s genId t p).1.createdAt = (create s genId t p).1.updatedAt ∧
      (create s genId t p).1.fields = sanitizeClientPayload p ∧
      (∀ k, k ∈ reservedKeys → oget (create s genId t p).1.fields k = none)) ∧
    (∀ (s : Store) (genId : String) (t : Nat) (pf : Obj),
      create s genId t (.pObj pf) = create s genId t (.pObj (stripReserved pf))) ∧
    (∀ (st : JsonStoreState) (fp : String) (pid : Nat) (genId : String) (t tW : Nat)
        (p : Payload),
      (jsCreate st fp pid genId t tW p).1 = (create st.items genId t p).1) ∧
    (∀ (tbl : PgTable) (genId : String) (t : Nat) (p : Payload),
      (pgCreate tbl genId t p).1.id = genId ∧
      (pgCreate tbl genId t p).1.createdAt = (pgCreate tbl genId t p).1.updatedAt ∧
      (pgCreate tbl genId t p).1.fields
        = jsonSerializeObj (sanitizeClientPayload p) ∧
      (∀ k, k ∈ reservedKeys → oget (pgCreate tbl genId t p).1.fields k = none)) ∧
    (∀ (tbl : PgTable) (genId : String) (t : Nat) (pf : Obj) (k : String),
      (∀ v, k ∉ reservedKeys → v ≠ Value.vUndef → oget pf k = some v →
        oget (pgCreate tbl genId t (.pObj pf)).1.fields k = some v) ∧
      ((okeys pf).Nodup → oget pf k = some Value.vUndef →
        oget (pgCreate tbl genId t (.pObj pf)).1.fields k = none) ∧
      (oget pf k = none →
        oget (pgCreate tbl genId t (.pObj pf)).1.fields k = none)) ∧
    (∀ (schema : ModelSchema) (col : MCollection) (genOid : String) (t : Nat)
        (p : Payload),
      (mongoCreate schema col genOid t p).1.id = genOid ∧
      (mongoCreate schema col genOid t p).1.createdAt
        = (mongoCreate schema col genOid t p).1.updatedAt ∧
      (mongoCreate schema col genOid t p).1.fields = pickStructuredInsert schema p ∧
      (∀ k, k ∈ okeys (mongoCreate schema col genOid t p).1.fields →
        k ∈ schemaKeys schema) ∧
      (∀ k, k ∈ reservedKeys →
        oget (mongoCreate schema col genOid t p).1.fields k = none)) := by
  refine ⟨?_, ?_, ?_, ?_, ?_, ?_⟩
  · intro s genId t p hne
    exact ⟨rfl, hne, rfl, rfl, fun k hk => oget_sanitize_reserved p k hk⟩
  · intro s genId t pf
    simp [create, sanitizeClientPayload, stripReserved_idem]
  · intro st fp pid genId t tW p
    rfl
  · intro tbl genId t p
    refine ⟨rfl, rfl, rfl, fun k hk => ?_⟩
    exact oget_jsonSerializeObj_none _ k (oget_sanitize_reserved p k hk)
  · intro tbl genId t pf k
    refine ⟨?_, ?_, ?_⟩
    · intro v hk hv h
      have hs : oget (stripReserved pf) k = some v := by
        have heq := oget_sanitize_not_reserved pf k hk
        simp only [sanitizeClientPayload] at heq
        rw [heq]
        exact h
      exact oget_jsonSerializeObj_some _ k v hv hs
    · intro hnd h
      by_cases hk : k ∈ reservedKeys
      · exact oget_jsonSerializeObj_none _ k
          (oget_sanitize_reserved (.pObj pf) k hk)
      · have hs : oget (stripReserved pf) k = some .vUndef := by
          have heq := oget_sanitize_not_reserved pf k hk
          simp only [sanitizeClientPayload] at heq
          rw [heq]
          exact h
        exact oget_jsonSerializeObj_undef _ k (okeys_stripReserved_nodup pf hnd) hs
    · intro h
      exact oget_jsonSerializeObj_none _ k (oget_stripReserved_none pf k h)
  · intro schema col genOid t p
    refine ⟨rfl, rfl, rfl, fun k hk => ?_, fun k hk => ?_⟩
    · exact okeys_pickAux_subset _ schema k hk
    · exact oget_pickAux_none _ schema k (oget_sanitize_reserved p k hk)

/-- Witness for C2 amended: a concrete create whose payload smuggles an id
field stores only the title on the memory store; the relational store keeps the
defined non-reserved field, drops the undefined-valued one and the smuggled id;
the document adapter with the sample schema keeps only the declared field a out
of a payload also carrying an undeclared field. -/
theorem create_sanitized_fields_contract_witness :
    (create [] "u1" 3 (.pObj [("id", Value.vStr "HACK"), ("title", Value.vStr "Buy milk")])).1.id
        = "u1" ∧
    (create [] "u1" 3 (.pObj [("id", Value.vStr "HACK"), ("title", Value.vStr "Buy milk")])).1.fields
        = [("title", Value.vStr "Buy milk")] ∧
    oget (create [] "u1" 3
        (.pObj [("id", Value.vStr "HACK"), ("title", Value.vStr "Buy milk")])).1.fields "id"
        = none ∧
    oget (pgCreate [] "u1" 3
        (.pObj [("id", Value.vStr "HACK"), ("title", Value.vStr "Buy milk"),
          ("tmp", Value.vUndef)])).1.fields "title"
        = some (Value.vStr "Buy milk") ∧
    oget (pgCreate [] "u1" 3
        (.pObj [("id", Value.vStr "HACK"), ("title", Value.vStr "Buy milk"),
          ("tmp", Value.vUndef)])).1.fields "tmp"
        = none ∧
    oget (pgCreate [] "u1" 3
        (.pObj [("id", Value.vStr "HACK"), ("title", Value.vStr "Buy milk"),
          ("tmp", Value.vUndef)])).1.fields "id"
        = none ∧
    (mongoCreate exSchema [] exOid 3
        (.pObj [("a", Value.vNum 7), ("extra", Value.vNum 9)])).1.fields
        = [("a", Value.vNum 7)] := by
  obtain ⟨h₁, h₂, hjs, h₃, h₄, h₅⟩ := create_sanitized_fields_contract
  obtain ⟨hid, hne, hts, hfields, hres⟩ :=
    h₁ [] "u1" 3 (.pObj [("id", Value.vStr "HACK"), ("title", Value.vStr "Buy milk")])
      (by decide)
  obtain ⟨pover, pundef, pnone⟩ :=
    h₄ [] "u1" 3 [("id", Value.vStr "HACK"), ("title", Value.vStr "Buy milk"),
      ("tmp", Value.vUndef)] "title"
  obtain ⟨qover, qundef, qnone⟩ :=
    h₄ [] "u1" 3 [("id", Value.vStr "HACK"), ("title", Value.vStr "Buy milk"),
      ("tmp", Value.vUndef)] "tmp"
  obtain ⟨rid, rts, rfields, rres⟩ :=
    h₃ [] "u1" 3 (.pObj [("id", Value.vStr "HACK"), ("title", Value.vStr "Buy milk"),
      ("tmp", Value.vUndef)])
  obtain ⟨mid, mts, mfields, msub, mres⟩ :=
    h₅ exSchema [] exOid 3 (.pObj [("a", Value.vNum 7), ("extra", Value.vNum 9)])
  refine ⟨hid, ?_, hres "id" (by decide),
    pover (Value.vStr "Buy milk") (by decide) (by decide) (by decide),
    qundef (by decide) (by decide), rres "id" (by decide), ?_⟩
  · rw [hfields]
    decide
  · rw [mfields]
    decide

/-! ### C3 -/

/-- C3: not-found is never an error: for a missing id, getById returns absent,
update returns absent leaving the store unchanged and delete returns false; a
second delete of the same id returns false; on the document adapter an id that
does not parse into an ObjectId, and a valid but absent one, resolve to absent
or false; likewise the relational store on an unmatched id. All operations are
total functions of this embedding, so none of these paths throws. -/
theorem notfound_absent_contract :
    (∀ (s : Store) (i : String), mget s i = none →
      getById s i = none ∧ (∀ t p, update s i t p = (none, s)) ∧
      delete s i = (false, s)) ∧
    (∀ (s : Store) (i : String), (delete (delete s i).2 i).1 = false) ∧
    (∀ (col : MCollection) (i : String), isValidObjectId i = false →
      mongoGetById col i = none ∧
      (∀ schema t p, mongoUpdate schema col i t p = (none, col)) ∧
      mongoDelete col i = (false, col)) ∧
    (∀ (col : MCollection) (i : String), isValidObjectId i = true →
      mfind col i = none →
      mongoGetById col i = none ∧
      (∀ schema t p, mongoUpdate schema col i t p = (none, col)) ∧
      mongoDelete col i = (false, col)) ∧
    (∀ (tbl : PgTable) (i : String), pgFind tbl i = none →
      pgGetById tbl i = none ∧ (∀ t p, pgUpdate tbl i t p = (none, tbl)) ∧
      pgDelete tbl i = (false, tbl)) := by
  refine ⟨?_, ?_, ?_, ?_, ?_⟩
  · intro s i hmem
    refine ⟨by simp [getById, hmem], fun t p => by simp [update, hmem], ?_⟩
    simp [delete, mdelete, mhas_false_of_mget_none s i hmem,
      mremove_of_mget_none s i hmem]
  · intro s i
    simp [delete, mdelete, mhas_mremove_self]
  · intro col i hinv
    exact ⟨by simp [mongoGetById, buildLookup, hinv],
      fun schema t p => by simp [mongoUpdate, buildLookup, hinv],
      by simp [mongoDelete, buildLookup, hinv]⟩
  · intro col i hvalid hmiss
    exact ⟨by simp [mongoGetById, buildLookup, hvalid, hmiss],
      fun schema t p => by simp [mongoUpdate, buildLookup, hvalid, hmiss],
      by simp [mongoDelete, buildLookup, hvalid, hmiss]⟩
  · intro tbl i hmiss
    exact ⟨by simp [pgGetById, hmiss],
      fun t p => by simp [pgUpdate, hmiss],
      by simp [pgDelete, hmiss]⟩

/-- Witness for C3: the literal id does-not-exist misses the sample store and
does not parse as an ObjectId, and every operation answers absent or false; the
second delete of the existing id also answers false. -/
theorem notfound_absent_contract_witness :
    getById exStore "does-not-exist" = none ∧
    update exStore "does-not-exist" 1 (.pObj []) = (none, exStore) ∧
    delete exStore "does-not-exist" = (false, exStore) ∧
    (delete (delete exStore "id1").2 "id1").1 = false ∧
    mongoGetById exCol "does-not-exist" = none ∧
    mongoUpdate exSchema exCol "does-not-exist" 1 (.pObj []) = (none, exCol) ∧
    mongoDelete exCol "does-not-exist" = (false, exCol) ∧
    pgGetById [] "does-not-exist" = none := by
  obtain ⟨h₁, h₂, h₃, h₄, h₅⟩ := notfound_absent_contract
  obtain ⟨ha, hb, hc⟩ := h₁ exStore "does-not-exist" (by decide)
  obtain ⟨hd, he, hf⟩ := h₃ exCol "does-not-exist" (by decide)
  exact ⟨ha, hb 1 (.pObj []), hc, h₂ exStore "id1", hd, he exSchema 1 (.pObj []), hf,
    (h₅ [] "does-not-exist" (by decide)).1⟩

/-! ### C4 -/

/-- C4 counterexample: two creates on the memory store whose second generated
id sorts before the first leave getAll in insertion order, with an adjacent
pair violating ascending id order. -/
theorem getAll_id_order_counterexample :
    (getAll (create (create [] "b-id" 0 (.pObj [])).2 "a-id" 1 (.pObj [])).2).map CrudItem.id
        = ["b-id", "a-id"] ∧
    ¬ (("b-id" : String) ≤ "a-id") :=
  ⟨by decide, by rw [String.le_iff_toList_le]; decide⟩

/-- C4 amended: the relational and document adapters return getAll sorted by id
ascending; the memory and file stores return the snapshot in Map insertion
order, appending each freshly created record at the end. -/
theorem getAll_order_per_backend :
    (∀ tbl : PgTable, (pgGetAll tbl).Pairwise (fun a b => a.id ≤ b.id)) ∧
    (∀ col : MCollection, (mongoGetAll col).Pairwise (fun a b => a.id ≤ b.id)) ∧
    (∀ (s : Store) (genId : String) (t : Nat) (p : Payload), mget s genId = none →
      getAll (create s genId t p).2 = getAll s ++ [(create s genId t p).1]) ∧
    (∀ (st : JsonStoreState) (fp : String) (pid : Nat) (genId : String) (t tW : Nat)
        (p : Payload), mget st.items genId = none →
      jsGetAll (jsCreate st fp pid genId t tW p).2
        = jsGetAll st ++ [(jsCreate st fp pid genId t tW p).1]) := by
  refine ⟨?_, ?_, ?_, ?_⟩
  · intro tbl
    rw [pgGetAll, List.pairwise_map]
    exact (pairwise_sortByKey CrudRow.id tbl).imp (fun h => h)
  · intro col
    rw [mongoGetAll, List.pairwise_map]
    exact (pairwise_sortByKey StoredDoc.oid col).imp (fun h => h)
  · intro s genId t p hmem
    simp [getAll, create, mset_append_of_not_mem s genId _ hmem]
  · intro st fp pid genId t tW p hmem
    simp [jsGetAll, jsCreate, getAll, create, mset_append_of_not_mem st.items genId _ hmem]

/-- Witness for C4 amended: appending behaviour of the memory and file stores
at a concrete store and fresh id. -/
theorem getAll_order_per_backend_witness :
    getAll (create exStore "id2" 1 (.pObj [])).2
        = getAll exStore ++ [(create exStore "id2" 1 (.pObj [])).1] ∧
    jsGetAll (jsCreate { items := exStore, fs := [] } "f.json" 7 "id2" 1 2 (.pObj [])).2
        = jsGetAll { items := exStore, fs := [] }
          ++ [(jsCreate { items := exStore, fs := [] } "f.json" 7 "id2" 1 2 (.pObj [])).1] := by
  obtain ⟨h₁, h₂, h₃, h₄⟩ := getAll_order_per_backend
  exact ⟨h₃ exStore "id2" 1 (.pObj []) (by decide),
    h₄ { items := exStore, fs := [] } "f.json" 7 "id2" 1 2 (.pObj []) (by decide)⟩

/-! ### C5 -/

/-- C5: create followed immediately by getById of the returned id yields
exactly the record create returned — unconditionally on the memory and file
stores, and for a fresh well-formed ObjectId or fresh UUID on the document and
relational adapters. -/
theorem create_getById_roundtrip :
    (∀ (s : Store) (genId : String) (t : Nat) (p : Payload),
      getById (create s genId t p).2 genId = some (create s genId t p).1) ∧
    (∀ (st : JsonStoreState) (fp : String) (pid : Nat) (genId : String) (t tW : Nat)
        (p : Payload),
      jsGetById (jsCreate st fp pid genId t tW p).2 genId
        = some (jsCreate st fp pid genId t tW p).1) ∧
    (∀ (schema : ModelSchema) (col : MCollection) (genOid : String) (t : Nat)
        (p : Payload), isValidObjectId genOid = true → mfind col genOid = none →
      mongoGetById (mongoCreate schema col genOid t p).2 genOid
        = some (mongoCreate schema col genOid t p).1) ∧
    (∀ (tbl : PgTable) (genId : String) (t : Nat) (p : Payload),
      pgFind tbl genId = none →
      pgGetById (pgCreate tbl genId t p).2 genId = some (pgCreate tbl genId t p).1) := by
  refine ⟨?_, ?_, ?_, ?_⟩
  · intro s genId t p
    simp [getById, create, mget_mset_self]
  · intro st fp pid genId t tW p
    simp [jsGetById, jsCreate, create, mget_mset_self]
  · intro schema col genOid t p hvalid hmiss
    simp only [mongoGetById, mongoCreate, buildLookup, hvalid, if_true]
    rw [mfind_append_singleton col genOid _ hmiss]
    simp
  · intro tbl genId t p hmiss
    simp only [pgGetById, pgCreate]
    rw [pgFind_append_singleton tbl genId _ hmiss]
    simp

/-- Witness for C5: the round trip at a concrete fresh ObjectId on an empty
collection and a concrete fresh id on an empty table. -/
theorem create_getById_roundtrip_witness :
    mongoGetById (mongoCreate exSchema [] exOid 0 (.pObj [("a", Value.vNum 7)])).2 exOid
        = some (mongoCreate exSchema [] exOid 0 (.pObj [("a", Value.vNum 7)])).1 ∧
    pgGetById (pgCreate [] "u1" 0 (.pObj [("a", Value.vNum 7)])).2 "u1"
        = some (pgCreate [] "u1" 0 (.pObj [("a", Value.vNum 7)])).1 := by
  obtain ⟨h₁, h₂, h₃, h₄⟩ := create_getById_roundtrip
  exact ⟨h₃ exSchema [] exOid 0 (.pObj [("a", Value.vNum 7)]) (by decide) (by decide),
    h₄ [] "u1" 0 (.pObj [("a", Value.vNum 7)]) (by decide)⟩

/-! ### C6 -/

/-- C6: bootstrap memoization per adapter instance: a cached promise is shared
as is with no new attempt; a first caller stores the fresh attempt promise
under its table or collection name before any other caller runs, so any run of
sequential callers of one key receives the single attempt promise and exactly
one attempt starts; a failed attempt evicts its key, after which exactly the
next caller starts one fresh attempt whose promise differs from the evicted
one. -/
theorem bootstrap_memoization_contract :
    (∀ (st : BootState) (key : String) (p : Nat),
      bootLookup st.cache key = some p → ensureResource st key = (st, p)) ∧
    (∀ (st : BootState) (key : String), bootLookup st.cache key = none →
      bootLookup (ensureResource st key).1.cache key = some (ensureResource st key).2 ∧
      (ensureResource st key).2 = st.nextId ∧
      (ensureResource st key).1.nextId = st.nextId + 1) ∧
    (∀ (st : BootState) (key : String) (n : Nat), bootLookup st.cache key = none →
      runEnsures st (List.replicate (n + 1) key)
        = ((ensureResource st key).1, List.replicate (n + 1) st.nextId)) ∧
    (∀ (st : BootState) (key : String) (p : Nat), BootWF st →
      bootLookup st.cache key = some p →
      (ensureResource (evictOnFailure st key) key).2 = st.nextId ∧
      (ensureResource (evictOnFailure st key) key).2 ≠ p ∧
      bootLookup (ensureResource (evictOnFailure st key) key).1.cache key
        = some st.nextId) := by
  refine ⟨?_, ?_, ?_, ?_⟩
  · intro st key p h
    simp [ensureResource, h]
  · intro st key h
    simp [ensureResource, h, bootLookup]
  · intro st key n h
    have hmiss : ensureResource st key
        = ({ cache := (key, st.nextId) :: st.cache, nextId := st.nextId + 1 },
            st.nextId) := by
      simp [ensureResource, h]
    have hhit : bootLookup (ensureResource st key).1.cache key = some st.nextId := by
      rw [hmiss]
      simp [bootLookup]
    simp only [List.replicate_succ, runEnsures]
    rw [runEnsures_replicate_hit _ key st.nextId n hhit, hmiss]
  · intro st key p hwf h
    have hrm : bootLookup (bootRemove st.cache key) key = none :=
      bootLookup_bootRemove_self st.cache key
    have hlt : p < st.nextId := hwf key p h
    have hre : ensureResource (evictOnFailure st key) key
        = ({ cache := (key, st.nextId) :: bootRemove st.cache key,
             nextId := st.nextId + 1 }, st.nextId) := by
      simp [ensureResource, evictOnFailure, hrm]
    refine ⟨by rw [hre], ?_, by rw [hre]; simp [bootLookup]⟩
    rw [hre]
    exact ne_of_gt hlt

/-- Witness for C6 at a concrete cache: a cached key is answered from the
cache; three sequential requests of a fresh key hand out one shared promise
allocated once; after a failure eviction the next request allocates the next
fresh promise. -/
theorem bootstrap_memoization_contract_witness :
    ensureResource { cache := [("public.todos", 0)], nextId := 1 } "public.todos"
        = ({ cache := [("public.todos", 0)], nextId := 1 }, 0) ∧
    runEnsures { cache := [], nextId := 0 } (List.replicate 3 "public.todos")
        = (({ cache := [("public.todos", 0)], nextId := 1 } : BootState),
            List.replicate 3 0) ∧
    (ensureResource
        (evictOnFailure { cache := [("public.todos", 0)], nextId := 1 } "public.todos")
        "public.todos").2 = 1 := by
  obtain ⟨h₁, h₂, h₃, h₄⟩ := bootstrap_memoization_contract
  have hwf : BootWF { cache := [("public.todos", 0)], nextId := 1 } := by
    intro k p hp
    simp only [bootLookup] at hp
    by_cases hk : "public.todos" = k
    · rw [if_pos hk] at hp
      injection hp with h
      show p < 1
      omega
    · rw [if_neg hk] at hp
      exact Option.noConfusion hp
  refine ⟨h₁ { cache := [("public.todos", 0)], nextId := 1 } "public.todos" 0 (by decide),
    ?_, (h₄ { cache := [("public.todos", 0)], nextId := 1 } "public.todos" 0 hwf
      (by decide)).1⟩
  have h := h₃ { cache := [], nextId := 0 } "public.todos" 2 (by decide)
  simpa [ensureResource, bootLookup] using h

/-! ### C7 -/

/-- C7: a relational or document adapter request whose required setting is
present neither in the explicit configuration nor in its fallback environment
variable makes the factory raise the synchronous configuration error (the
error value of this embedding, produced before any adapter or store value
exists), and each message names the missing setting, the config key and the
environment variable that were checked. -/
theorem factory_missing_setting_error :
    (∀ (config : DbConfig) (env : Env), config.adapter = some "postgres" →
      settingMissing (resolveSetting config.pgConnectionString env.databaseUrl) = true →
      createDbAdapter config env = .error pgConnErrorMsg) ∧
    (containsStr pgConnErrorMsg "connection string" = true ∧
      containsStr pgConnErrorMsg "db.postgres.connectionString" = true ∧
      containsStr pgConnErrorMsg "DATABASE_URL" = true) ∧
    (∀ (config : DbConfig) (env : Env), config.adapter = some "mongodb" →
      settingMissing (resolveSetting config.mongoConnectionString env.mongodbUri) = true →
      createDbAdapter config env = .error mongoConnErrorMsg) ∧
    (containsStr mongoConnErrorMsg "connection string" = true ∧
      containsStr mongoConnErrorMsg "db.mongodb.connectionString" = true ∧
      containsStr mongoConnErrorMsg "MONGODB_URI" = true) ∧
    (∀ (config : DbConfig) (env : Env), config.adapter = some "mongodb" →
      settingMissing (resolveSetting config.mongoConnectionString env.mongodbUri) = false →
      settingMissing (resolveSetting config.mongoDbName env.mongodbDb) = true →
      createDbAdapter config env = .error mongoDbNameErrorMsg) ∧
    (containsStr mongoDbNameErrorMsg "database name" = true ∧
      containsStr mongoDbNameErrorMsg "db.mongodb.dbName" = true ∧
      containsStr mongoDbNameErrorMsg "MONGODB_DB" = true) := by
  refine ⟨?_, by decide, ?_, by decide, ?_, by decide⟩
  · intro config env hA hMiss
    simp [createDbAdapter, hA, hMiss]
  · intro config env hA hMiss
    simp [createDbAdapter, hA, hMiss]
  · intro config env hA hConn hDb
    simp [createDbAdapter, hA, hConn, hDb]

/-- Witness for C7: a postgres request with no connection string anywhere, a
mongo request with no connection string anywhere, and a mongo request with a
connection string but no database name, each produce their exact error. -/
theorem factory_missing_setting_error_witness :
    createDbAdapter
        { adapter := some "postgres", pgConnectionString := none,
          mongoConnectionString := none, mongoDbName := none }
        { databaseUrl := none, mongodbUri := none, mongodbDb := none }
      = .error pgConnErrorMsg ∧
    createDbAdapter
        { adapter := some "mongodb", pgConnectionString := none,
          mongoConnectionString := none, mongoDbName := none }
        { databaseUrl := none, mongodbUri := none, mongodbDb := none }
      = .error mongoConnErrorMsg ∧
    createDbAdapter
        { adapter := some "mongodb", pgConnectionString := none,
          mongoConnectionString := some "mongodb://localhost:27017", mongoDbName := none }
        { databaseUrl := none, mongodbUri := none, mongodbDb := none }
      = .error mongoDbNameErrorMsg := by
  obtain ⟨h₁, _, h₂, _, h₃, _⟩ := factory_missing_setting_error
  exact ⟨h₁ _ _ rfl (by decide), h₂ _ _ rfl (by decide), h₃ _ _ rfl (by decide) (by decide)⟩

/-! ### C8 -/

theorem fsRead_atomicWriteJson_self (fs : FileSys) (fp : String) (pid tNow : Nat)
    (items : List CrudItem) :
    fsRead (atomicWriteJson fs fp pid tNow items) fp = some (.jsonItems items) := by
  simp only [atomicWriteJson, atomicWriteStep2, atomicWriteStep1, fsRename,
    fsRead_fsWrite_self]

theorem fsRead_atomicWriteJson_tmp (fs : FileSys) (fp : String) (pid tNow : Nat)
    (items : List CrudItem) :
    fsRead (atomicWriteJson fs fp pid tNow items) (tmpWritePath fp pid tNow) = none := by
  simp only [atomicWriteJson, atomicWriteStep2, atomicWriteStep1, fsRename,
    fsRead_fsWrite_self]
  rw [fsRead_fsWrite_ne _ fp _ _ (tmpWritePath_ne fp pid tNow)]
  exact fsRead_fsRemove_self _ _

/-- C8: on first access an absent backing file yields the empty index with the
file system untouched; unparseable content is renamed aside to the timestamped
backup path (the original path becomes absent, the backup holds the corrupt
content) and the store proceeds with the empty index; the write of a mutation
first writes a temporary path, leaving the target file intact, and only the
final rename installs the full snapshot and clears the temporary path — as
every mutation of the file store does with the full current snapshot. -/
theorem file_store_load_and_atomic_write :
    (∀ (fs : FileSys) (fp : String) (tNow : Nat), fsRead fs fp = none →
      loadPersistedData fs fp tNow = ([], fs)) ∧
    (∀ (fs : FileSys) (fp : String) (tNow : Nat) (raw : String),
      fsRead fs fp = some (.notJson raw) →
      (loadPersistedData fs fp tNow).1 = [] ∧
      fsRead (loadPersistedData fs fp tNow).2 fp = none ∧
      fsRead (loadPersistedData fs fp tNow).2 (corruptBackupPath fp tNow)
        = some (.notJson raw)) ∧
    (∀ (fs : FileSys) (fp : String) (pid tNow : Nat) (items : List CrudItem),
      fsRead (atomicWriteStep1 fs fp pid tNow items) fp = fsRead fs fp) ∧
    (∀ (fs : FileSys) (fp : String) (pid tNow : Nat) (items : List CrudItem),
      fsRead (atomicWriteJson fs fp pid tNow items) fp = some (.jsonItems items) ∧
      fsRead (atomicWriteJson fs fp pid tNow items) (tmpWritePath fp pid tNow) = none) ∧
    (∀ (st : JsonStoreState) (fp : String) (pid : Nat) (genId : String) (t tW : Nat)
        (p : Payload),
      fsRead (jsCreate st fp pid genId t tW p).2.fs fp
        = some (.jsonItems (getAll (jsCreate st fp pid genId t tW p).2.items))) ∧
    (∀ (st : JsonStoreState) (fp : String) (pid : Nat) (id : String) (t tW : Nat)
        (p : Payload) (ex : CrudItem), mget st.items id = some ex →
      fsRead (jsUpdate st fp pid id t tW p).2.fs fp
        = some (.jsonItems (getAll (jsUpdate st fp pid id t tW p).2.items))) ∧
    (∀ (st : JsonStoreState) (fp : String) (pid : Nat) (id : String) (tW : Nat),
      mhas st.items id = true →
      fsRead (jsDelete st fp pid id tW).2.fs fp
        = some (.jsonItems (getAll (jsDelete st fp pid id tW).2.items))) := by
  refine ⟨?_, ?_, ?_, ?_, ?_, ?_, ?_⟩
  · intro fs fp tNow h
    simp [loadPersistedData, h]
  · intro fs fp tNow raw h
    have hne : fp ≠ corruptBackupPath fp tNow := Ne.symm (corruptBackupPath_ne fp tNow)
    refine ⟨by simp [loadPersistedData, h], ?_, ?_⟩
    · simp only [loadPersistedData, h, fsRename]
      rw [fsRead_fsWrite_ne _ _ _ _ hne]
      exact fsRead_fsRemove_self fs fp
    · simp only [loadPersistedData, h, fsRename]
      exact fsRead_fsWrite_self _ _ _
  · intro fs fp pid tNow items
    exact fsRead_fsWrite_ne fs _ fp _ (Ne.symm (tmpWritePath_ne fp pid tNow))
  · intro fs fp pid tNow items
    exact ⟨fsRead_atomicWriteJson_self fs fp pid tNow items,
      fsRead_atomicWriteJson_tmp fs fp pid tNow items⟩
  · intro st fp pid genId t tW p
    exact fsRead_atomicWriteJson_self st.fs fp pid tW _
  · intro st fp pid id t tW p ex hmem
    simp only [jsUpdate, hmem]
    exact fsRead_atomicWriteJson_self st.fs fp pid tW _
  · intro st fp pid id tW hhas
    simp only [jsDelete, mdelete, hhas, if_true]
    exact fsRead_atomicWriteJson_self st.fs fp pid tW _

/-- Witness for C8: an absent file leaves a concrete file system untouched; a
corrupt file moves to its timestamped backup; a concrete create rewrites the
file to the new snapshot. -/
theorem file_store_load_and_atomic_write_witness :
    loadPersistedData [("other.json", Content.jsonOther)] "todos.json" 9
        = ([], [("other.json", Content.jsonOther)]) ∧
    fsRead (loadPersistedData [("todos.json", Content.notJson "oops-not-json")] "todos.json" 9).2
        "todos.json" = none ∧
    fsRead (loadPersistedData [("todos.json", Content.notJson "oops-not-json")] "todos.json" 9).2
        "todos.json.corrupt-9" = some (Content.notJson "oops-not-json") ∧
    fsRead (jsCreate { items := [], fs := [] } "todos.json" 7 "u1" 1 1 (.pObj [])).2.fs
        "todos.json"
      = some (Content.jsonItems
          (getAll (jsCreate { items := [], fs := [] } "todos.json" 7 "u1" 1 1 (.pObj [])).2.items)) := by
  obtain ⟨h₁, h₂, h₃, h₄, h₅, h₆, h₇⟩ := file_store_load_and_atomic_write
  obtain ⟨hb₁, hb₂, hb₃⟩ :=
    h₂ [("todos.json", Content.notJson "oops-not-json")] "todos.json" 9 "oops-not-json" (by decide)
  refine ⟨h₁ [("other.json", Content.jsonOther)] "todos.json" 9 (by decide), hb₂, ?_,
    h₅ { items := [], fs := [] } "todos.json" 7 "u1" 1 1 (.pObj [])⟩
  have hpath : corruptBackupPath "todos.json" 9 = "todos.json.corrupt-9" := by decide
  rw [hpath] at hb₃
  exact hb₃

/-! ### C9 -/

/-- C9: a configuration whose adapter kind is none of the four recognized
values makes the factory silently construct the memory adapter instead of
raising a configuration error. -/
theorem factory_unknown_kind_memory (config : DbConfig) (env : Env) (a : String)
    (hA : config.adapter = some a)
    (h₁ : a ≠ "memory") (h₂ : a ≠ "json") (h₃ : a ≠ "postgres") (h₄ : a ≠ "mongodb") :
    createDbAdapter config env = .ok .memory := by
  simp [createDbAdapter, hA, h₁, h₂, h₃, h₄]

/-- Witness for C9: the unrecognized kind sqlite yields the memory adapter. -/
theorem factory_unknown_kind_memory_witness :
    createDbAdapter
        { adapter := some "sqlite", pgConnectionString := none,
          mongoConnectionString := none, mongoDbName := none }
        { databaseUrl := none, mongodbUri := none, mongodbDb := none }
      = .ok .memory :=
  factory_unknown_kind_memory _ _ "sqlite" rfl (by decide) (by decide) (by decide)
    (by decide)

/-! ### C10 -/

/-- C10: every non-object payload (null, undefined, number, string, boolean)
sanitizes to the empty field set on every store, so create succeeds and stores
only id and the two timestamps, and update on an existing id succeeds, keeps
every stored field unchanged and only refreshes updatedAt; all the operations
are total functions of the embedding, so none throws. -/
theorem non_object_payload_empty_fields :
    (∀ p : Payload, p.isObj = false → sanitizeClientPayload p = []) ∧
    (∀ (s : Store) (genId : String) (t : Nat) (p : Payload), p.isObj = false →
      (create s genId t p).1
        = { id := genId, createdAt := t, updatedAt := t, fields := [] }) ∧
    (∀ (s : Store) (i : String) (ex : CrudItem) (t : Nat) (p : Payload),
      p.isObj = false → mget s i = some ex →
      (update s i t p).1
        = some { id := ex.id, createdAt := ex.createdAt, updatedAt := t,
                 fields := ex.fields }) ∧
    (∀ (tbl : PgTable) (genId : String) (t : Nat) (p : Payload), p.isObj = false →
      (pgCreate tbl genId t p).1.fields = []) ∧
    (∀ (tbl : PgTable) (i : String) (r : CrudRow) (t : Nat) (p : Payload),
      p.isObj = false → pgFind tbl i = some r →
      (pgUpdate tbl i t p).1
        = some { id := r.id, createdAt := r.created_at, updatedAt := t,
                 fields := r.data }) ∧
    (∀ (schema : ModelSchema) (col : MCollection) (genOid : String) (t : Nat)
        (p : Payload), p.isObj = false →
      (mongoCreate schema col genOid t p).1.fields = []) ∧
    (∀ (schema : ModelSchema) (col : MCollection) (d : StoredDoc) (t : Nat)
        (p : Payload), p.isObj = false → isValidObjectId d.oid = true →
      mfind col d.oid = some d →
      (mongoUpdate schema col d.oid t p).1
        = some { id := d.oid, createdAt := d.createdAt, updatedAt := t,
                 fields := d.fields }) := by
  have hsan : ∀ p : Payload, p.isObj = false → sanitizeClientPayload p = [] := by
    intro p h
    cases p with
    | pObj fields => simp [Payload.isObj] at h
    | pNull => rfl
    | pUndef => rfl
    | pNum n => rfl
    | pStr s => rfl
    | pBool b => rfl
  refine ⟨hsan, ?_, ?_, ?_, ?_, ?_, ?_⟩
  · intro s genId t p h
    simp [create, hsan p h]
  · intro s i ex t p h hmem
    simp [update, hmem, hsan p h, ospread]
  · intro tbl genId t p h
    simp [pgCreate, hsan p h, rowToCrudItem, jsonSerializeObj]
  · intro tbl i r t p h hfind
    simp [pgUpdate, hfind, hsan p h, jsonSerializeObj, ospread, rowToCrudItem]
  · intro schema col genOid t p h
    simp only [mongoCreate, docToCrudItem, pickStructuredInsert, hsan p h]
    exact pickAux_nil schema
  · intro schema col d t p h hvalid hfind
    simp only [mongoUpdate, buildLookup, hvalid, if_true, hfind,
      splitStructuredPatch, hsan p h, splitAux_nil, docToCrudItem, unsetAll, ospread]

/-- Witness for C10: creating from the string payload hello stores only id and
the timestamps, and updating the sample item with a number payload keeps both
stored fields and refreshes only updatedAt. -/
theorem non_object_payload_empty_fields_witness :
    (create [] "u1" 2 (.pStr "hello")).1
        = { id := "u1", createdAt := 2, updatedAt := 2, fields := [] } ∧
    (update exStore "id1" 3 (.pNum 42)).1
        = some { id := "id1", createdAt := 0, updatedAt := 3,
                 fields := [("a", Value.vNum 1), ("b", Value.vNum 2)] } := by
  obtain ⟨hs, hc, hu, _, _, _, _⟩ := non_object_payload_empty_fields
  exact ⟨hc [] "u1" 2 (.pStr "hello") (by decide),
    hu exStore "id1" exItem 3 (.pNum 42) (by decide) (by decide)⟩

end Railnode
